import Mathlib

/-!
Verification of the pharmaaai/database2 repository against its
natural-language specification.

The repository ships two near-identical Streamlit variants
(`src/app.py` and `src/database.py`) of a résumé-matching workflow:
a Pinecone vector query feeding a LangGraph pipeline
(retrieve_jobs → generate_analysis → conditionally tailor_resume),
behind a username/password gate.  Those parts are embedded below from
the source.

The specification additionally describes a Row Filter and a Price
Calculator core.  No implementation of either is present under `src/`
(only the spec describes them), so those components are modelled from
the spec's words, as marked in their doc comments.
-/

/- ### Price Calculator (spec §4.2) -/

/-- Modelled from the spec: the error kind `InvalidInput` of §7; the
price calculator implementation is missing from `src/`. -/
inductive PriceError
  | invalidInput
deriving DecidableEq, Repr

/-- Modelled from the spec: the linear overflow rule
`base + floor((count - anchor) / bucketSize) * increment` applied to
counts beyond the last explicit step-table bound; the price calculator
implementation is missing from `src/`. -/
structure OverflowRule where
  base : Int
  anchor : Int
  bucketSize : Int
  increment : Int
deriving DecidableEq, Repr

/-- Modelled from the spec: a pricing policy is either a step table
(an ordered table of (maxRows, price) bounds plus an overflow rule)
or linear-with-floor `max(count * perRowRate, minimumPrice)`; the
bound table and overflow formula are configuration.  The price
calculator implementation is missing from `src/`. -/
inductive PricePolicy
  | stepTable (bounds : List (Int × Int)) (overflow : OverflowRule)
  | linearFloor (perRowRate minimumPrice : Int)
deriving DecidableEq, Repr

/-- Modelled from the spec: evaluate the overflow formula
`base + floor((count - anchor) / bucketSize) * increment`.  `Int`
division in Lean is Euclidean division, which for a positive divisor
is exactly the floor of the rational quotient. -/
def applyOverflow (o : OverflowRule) (count : Int) : Int :=
  o.base + ((count - o.anchor) / o.bucketSize) * o.increment

/-- Modelled from the spec: consult the ordered table of
(maxRows, price) bounds; for counts beyond the last explicit bound,
apply the overflow rule. -/
def stepLookup (bounds : List (Int × Int)) (o : OverflowRule) (count : Int) : Int :=
  match bounds with
  | [] => applyOverflow o count
  | (bound, price) :: rest =>
      if count ≤ bound then price else stepLookup rest o count

/-- Modelled from the spec: `calculatePrice(count, policyConfig) -> amount`.
Both policies reject negative counts with `InvalidInput`; the
step-table policy consults the bound table and falls through to the
overflow rule; the linear-with-floor policy returns
`max(count * perRowRate, minimumPrice)`. -/
def calculatePrice (count : Int) (p : PricePolicy) : Except PriceError Int :=
  if count < 0 then .error .invalidInput
  else
    match p with
    | .stepTable bounds o => .ok (stepLookup bounds o count)
    | .linearFloor perRowRate minimumPrice => .ok (max (count * perRowRate) minimumPrice)

/-- The example step table of the spec: ≤25→1, ≤50→2, ≤100→4, ≤200→8,
≤300→12, ≤400→16. -/
def exampleBounds : List (Int × Int) :=
  [(25, 1), (50, 2), (100, 4), (200, 8), (300, 12), (400, 16)]

/-- The observed overflow literal of the spec:
`20 + floor((count - 500) / 100) * 4`. -/
def exampleOverflow : OverflowRule :=
  { base := 20, anchor := 500, bucketSize := 100, increment := 4 }

/-- The example step-table policy configuration of the spec. -/
def examplePolicy : PricePolicy :=
  .stepTable exampleBounds exampleOverflow

/-- A step table is well formed when its bounds are strictly
increasing and its prices non-decreasing along the table. -/
def tableOk : List (Int × Int) → Bool
  | [] => true
  | [_] => true
  | (b1, p1) :: (b2, p2) :: rest =>
      decide (b1 < b2) && decide (p1 ≤ p2) && tableOk ((b2, p2) :: rest)

/-- The overflow rule is compatible with a step table when, at the
first count past the last explicit bound, it yields at least the last
table price. -/
def overflowOk (o : OverflowRule) : List (Int × Int) → Bool
  | [] => true
  | [(b, p)] => decide (p ≤ applyOverflow o (b + 1))
  | _ :: rest => overflowOk o rest

/-- A policy configuration is well formed: a step table needs a
well-formed table, a positive bucket size, a non-negative increment
and a compatible overflow rule; linear-with-floor needs a
non-negative per-row rate. -/
def policyOk : PricePolicy → Bool
  | .stepTable bounds o =>
      tableOk bounds && decide (0 < o.bucketSize) && decide (0 ≤ o.increment) &&
        overflowOk o bounds
  | .linearFloor perRowRate _ => decide (0 ≤ perRowRate)

/-- A step-table policy configuration with decreasing prices in its
bound table; it is a configuration on which monotonicity fails. -/
def badPolicy : PricePolicy := .stepTable [(25, 10), (50, 1)] exampleOverflow

/- ### Row Filter (spec §4.1) -/

/-- Modelled from the spec: a field value is a string or a number;
the row filter implementation is missing from `src/`. -/
inductive Value
  | str (s : String)
  | num (n : Int)
deriving DecidableEq, Repr

/-- Modelled from the spec: a Record is a mapping from field name to
value; one row of the source dataset. -/
abbrev Record := List (String × Value)

/-- Modelled from the spec: a Dataset is an ordered sequence of
Records. -/
abbrev Dataset := List Record

/-- Modelled from the spec: a predicate kind with its operand —
`contains` (case-insensitive substring, string operand), `gte`/`lte`
(numeric comparison), `between` (inclusive numeric range).  An absent
operand (`none`, or the empty string for `contains`) makes the
criterion always-true. -/
inductive Predicate
  | contains (operand : String)
  | gte (operand : Option Int)
  | lte (operand : Option Int)
  | between (operand : Option (Int × Int))
deriving DecidableEq, Repr

/-- Modelled from the spec: a FilterCriterion is a (field name,
predicate kind, operand) triple. -/
structure FilterCriterion where
  field : String
  pred : Predicate
deriving DecidableEq, Repr

/-- `needle` occurs at the head of `hay`. -/
def charsStartWith : List Char → List Char → Bool
  | [], _ => true
  | _ :: _, [] => false
  | a :: as, b :: bs => a == b && charsStartWith as bs

/-- `needle` occurs contiguously somewhere in `hay`. -/
def charsContain (needle : List Char) : List Char → Bool
  | [] => charsStartWith needle []
  | c :: t => charsStartWith needle (c :: t) || charsContain needle t

/-- Modelled from the spec: case-insensitive substring test. -/
def strContainsCI (hay pat : String) : Bool :=
  charsContain pat.toLower.data hay.toLower.data

/-- Modelled from the spec: numeric comparisons coerce string-typed
values to numbers; a value that fails coercion is excluded from
matching. -/
def valueToNum : Value → Option Int
  | .num n => some n
  | .str s => s.toInt?

/-- The string rendering of a value, used by the substring match. -/
def valueToStr : Value → String
  | .str s => s
  | .num n => toString n

/-- Modelled from the spec: evaluate one criterion on one record.  A
criterion with an empty/absent operand is always-true; a criterion
referencing a field absent from the record evaluates false; values
failing numeric coercion never match. -/
def evalCriterion (r : Record) (c : FilterCriterion) : Bool :=
  match c.pred with
  | .contains op =>
      if op = "" then true
      else
        match r.lookup c.field with
        | none => false
        | some v => strContainsCI (valueToStr v) op
  | .gte op =>
      match op with
      | none => true
      | some k =>
          match r.lookup c.field with
          | none => false
          | some v =>
              match valueToNum v with
              | none => false
              | some n => decide (k ≤ n)
  | .lte op =>
      match op with
      | none => true
      | some k =>
          match r.lookup c.field with
          | none => false
          | some v =>
              match valueToNum v with
              | none => false
              | some n => decide (n ≤ k)
  | .between op =>
      match op with
      | none => true
      | some (lo, hi) =>
          match r.lookup c.field with
          | none => false
          | some v =>
              match valueToNum v with
              | none => false
              | some n => decide (lo ≤ n) && decide (n ≤ hi)

/-- A record matches when every criterion evaluates true (logical
AND). -/
def recordMatches (cs : List FilterCriterion) (r : Record) : Bool :=
  cs.all (evalCriterion r)

/-- Modelled from the spec:
`filterDataset(dataset, criteria[]) -> (filteredDataset, count)` —
the subsequence of Records for which every criterion evaluates true,
together with its count. -/
def filterDataset (d : Dataset) (cs : List FilterCriterion) : Dataset × Nat :=
  let filtered := d.filter (recordMatches cs)
  (filtered, filtered.length)

/- ### The résumé-matching workflow (src/app.py and src/database.py) -/

/-- One match returned by the Pinecone index query.  `metadata` is the
match's metadata dict as an association list; `[]` stands for a
missing or empty metadata, both of which are falsy in
`if match.metadata`. -/
structure QueryMatch where
  metadata : List (String × String)
deriving DecidableEq, Repr

/-- A job entry of the agent state: one metadata dict. -/
abbrev Job := List (String × String)

/-- The external collaborators of the workflow, over an abstract
embedding type `E`: the sentence-transformer `embed`, the vector index
`query` (arguments: embedding, top_k, namespace) and the chat model
`llm` applied to (role, content) messages. -/
structure RagEnv (E : Type) where
  embed : String → E
  query : E → Nat → String → List QueryMatch
  llm : List (String × String) → String

/-- The `AgentState` TypedDict of both variants. -/
structure AgentState where
  resume_text : String
  jobs : List Job
  history : List String
  current_response : String
  selected_job : Option Job
deriving DecidableEq, Repr

/-- The list comprehension of `retrieve_jobs`
(`[match.metadata for match in results.matches if match.metadata]`):
keep the metadata of each match whose metadata dict is truthy. -/
def selectJobs (ms : List QueryMatch) : List Job :=
  (ms.filter fun m => !m.metadata.isEmpty).map QueryMatch.metadata

/-- The f-string of `generate_analysis` for one job:
`Title: {job[..]}\nCompany: {job[..]}` with the Job Title and Company
Name fields. -/
def jobLine (job : Job) : String :=
  "Title: " ++ (job.lookup "Job Title").getD "" ++
    "\nCompany: " ++ (job.lookup "Company Name").getD ""

/-- `generate_analysis`: `"\n\n".join(...)` over the job lines. -/
def jobTexts (jobs : List Job) : String :=
  String.intercalate "\n\n" (jobs.map jobLine)

/-- The prompt messages of `generate_analysis` after template
formatting. -/
def analysisMessages (resume : String) (jobs : List Job) : List (String × String) :=
  [("system", "You\x27re a career advisor. Analyze these jobs:"),
   ("human", "Resume: " ++ resume ++ "\nJobs:\n" ++ jobTexts jobs)]

/-- The prompt messages of `tailor_resume` after template
formatting. -/
def tailorMessages (job : Job) (resume : String) : List (String × String) :=
  [("system", "Tailor this resume for the job:"),
   ("human", "Job: " ++ (job.lookup "Job Title").getD "" ++ "\n" ++
     (job.lookup "Job Description").getD "" ++ "\nResume: " ++ resume)]

/-- `retrieve_jobs` of src/app.py: embed the resume text, query the
index with top_k = 30 in the "jobs" namespace, and merge the selected
metadata into the state as `jobs`. -/
def app_retrieve_jobs {E : Type} (env : RagEnv E) (s : AgentState) : AgentState :=
  { s with jobs := selectJobs (env.query (env.embed s.resume_text) 30 "jobs") }

/-- `retrieve_jobs` of src/database.py: identical except
top_k = 100. -/
def db_retrieve_jobs {E : Type} (env : RagEnv E) (s : AgentState) : AgentState :=
  { s with jobs := selectJobs (env.query (env.embed s.resume_text) 100 "jobs") }

/-- `generate_analysis` of src/app.py: invoke the chat model on the
analysis prompt and merge the answer as `current_response`. -/
def app_generate_analysis {E : Type} (env : RagEnv E) (s : AgentState) : AgentState :=
  { s with current_response := env.llm (analysisMessages s.resume_text s.jobs) }

/-- `generate_analysis` of src/database.py (identical). -/
def db_generate_analysis {E : Type} (env : RagEnv E) (s : AgentState) : AgentState :=
  { s with current_response := env.llm (analysisMessages s.resume_text s.jobs) }

/-- `tailor_resume` of src/app.py: invoke the chat model on the
tailoring prompt for the selected job.  The graph routes here only
when a job is selected; with no selected job the state is returned
unchanged. -/
def app_tailor_resume {E : Type} (env : RagEnv E) (s : AgentState) : AgentState :=
  match s.selected_job with
  | some job => { s with current_response := env.llm (tailorMessages job s.resume_text) }
  | none => s

/-- `tailor_resume` of src/database.py (identical). -/
def db_tailor_resume {E : Type} (env : RagEnv E) (s : AgentState) : AgentState :=
  match s.selected_job with
  | some job => { s with current_response := env.llm (tailorMessages job s.resume_text) }
  | none => s

/-- The conditional edge after `generate_analysis`
(`lambda x: "tailor_resume" if x.get("selected_job") else END`):
route to `tailor_resume` exactly when the selected job is truthy. -/
def wantsTailor (s : AgentState) : Bool :=
  match s.selected_job with
  | none => false
  | some j => !j.isEmpty

/-- The compiled graph of src/app.py: entry point `retrieve_jobs`,
then `generate_analysis`, then conditionally `tailor_resume`, then
END. -/
def app_workflow {E : Type} (env : RagEnv E) (s : AgentState) : AgentState :=
  let s1 := app_retrieve_jobs env s
  let s2 := app_generate_analysis env s1
  if wantsTailor s2 then app_tailor_resume env s2 else s2

/-- The compiled graph of src/database.py (same wiring). -/
def db_workflow {E : Type} (env : RagEnv E) (s : AgentState) : AgentState :=
  let s1 := db_retrieve_jobs env s
  let s2 := db_generate_analysis env s1
  if wantsTailor s2 then db_tailor_resume env s2 else s2

/-- The common workflow of both variants, abstracted over the
retrieval bound top_k. -/
def workflow_with {E : Type} (topK : Nat) (env : RagEnv E) (s : AgentState) : AgentState :=
  let s1 := { s with jobs := selectJobs (env.query (env.embed s.resume_text) topK "jobs") }
  let s2 := { s1 with current_response := env.llm (analysisMessages s1.resume_text s1.jobs) }
  if wantsTailor s2 then
    match s2.selected_job with
    | some job => { s2 with current_response := env.llm (tailorMessages job s2.resume_text) }
    | none => s2
  else s2

/-- A concrete environment over the unit embedding type whose index
returns no matches; used to witness the workflow theorems. -/
def envW : RagEnv Unit :=
  { embed := fun _ => (), query := fun _ _ _ => [], llm := fun _ => "" }

/-- A concrete initial agent state, as set up by the main app. -/
def stateW : AgentState :=
  { resume_text := "", jobs := [], history := [], current_response := "",
    selected_job := none }

/- ### The authentication gate (src/app.py, src/database.py) -/

/-- A row returned by `get_user_by_username`; `col2` is the element at
index 2, the stored password hash handed to `verify_password`.  The
`database` module defining `get_user_by_username`, `verify_password`
and `update_last_login` is not under `src/` (only its callers are), so
those collaborators are abstracted as function arguments below. -/
structure UserRow where
  col0 : String
  col1 : String
  col2 : String
deriving DecidableEq, Repr

/-- The observable outcome of one submission of the login form:
whether `st.session_state.logged_in` ends up true, whether
`update_last_login` was called, and whether the Invalid credentials
error was shown. -/
structure AuthOutcome where
  logged_in : Bool
  lastLoginUpdated : Bool
  errorShown : Bool
deriving DecidableEq, Repr

/-- `authentication_ui` of src/app.py (identical in src/database.py):
look the user up by username; when a row is found and
`verify_password(user[2], password)` succeeds, call
`update_last_login` and set `logged_in`; otherwise show the Invalid
credentials error and leave `logged_in` unchanged. -/
def authentication_ui (getUser : String → Option UserRow)
    (verifyPassword : String → String → Bool) (loggedInBefore : Bool)
    (username password : String) : AuthOutcome :=
  match getUser username with
  | some user =>
      if verifyPassword user.col2 password then
        { logged_in := true, lastLoginUpdated := true, errorShown := false }
      else
        { logged_in := loggedInBefore, lastLoginUpdated := false, errorShown := true }
  | none => { logged_in := loggedInBefore, lastLoginUpdated := false, errorShown := true }

/- ### Price calculator theorems (C1, C3, C2) -/

/-- C1: for the step-table pricing policy with the example bound table
and overflow formula `20 + floor((count-500)/100)*4`, `calculatePrice`
returns 1 at count 25, 2 at count 26, 4 at count 100, 20 at count 500
and 24 at count 600. -/
theorem calculatePrice_example_values :
    calculatePrice 25 examplePolicy = .ok 1 ∧
    calculatePrice 26 examplePolicy = .ok 2 ∧
    calculatePrice 100 examplePolicy = .ok 4 ∧
    calculatePrice 500 examplePolicy = .ok 20 ∧
    calculatePrice 600 examplePolicy = .ok 24 := by
  refine ⟨rfl, rfl, rfl, rfl, rfl⟩

/-- C3: for every pricing policy, `calculatePrice` applied to a
negative count fails with the `InvalidInput` error rather than
returning an amount. -/
theorem calculatePrice_neg_invalidInput (p : PricePolicy) (count : Int)
    (h : count < 0) :
    calculatePrice count p = .error .invalidInput := by
  simp [calculatePrice, h]

/-- Witness for C3 at count -1 and the example policy. -/
theorem calculatePrice_neg_invalidInput_witness :
    calculatePrice (-1) examplePolicy = .error .invalidInput :=
  calculatePrice_neg_invalidInput examplePolicy (-1) (by decide)

theorem applyOverflow_mono (o : OverflowRule) (hb : 0 < o.bucketSize)
    (hi : 0 ≤ o.increment) {m n : Int} (h : m ≤ n) :
    applyOverflow o m ≤ applyOverflow o n := by
  have h1 : (m - o.anchor) / o.bucketSize ≤ (n - o.anchor) / o.bucketSize :=
    Int.ediv_le_ediv hb (sub_le_sub_right h _)
  exact add_le_add_left (mul_le_mul_of_nonneg_right h1 hi) o.base

theorem tableOk_tail {bp : Int × Int} {rest : List (Int × Int)}
    (h : tableOk (bp :: rest) = true) : tableOk rest = true := by
  match rest with
  | [] => rfl
  | bp2 :: rest2 =>
      obtain ⟨b1, p1⟩ := bp
      obtain ⟨b2, p2⟩ := bp2
      simp only [tableOk, Bool.and_eq_true] at h
      exact h.2

theorem overflowOk_tail (o : OverflowRule) {bp : Int × Int}
    {rest : List (Int × Int)} (h : overflowOk o (bp :: rest) = true) :
    overflowOk o rest = true := by
  match rest with
  | [] => rfl
  | bp2 :: rest2 => exact h

/-- Once the count has passed a well-formed table's bound, the
remaining lookup never returns less than that bound's price. -/
theorem stepLookup_lower (o : OverflowRule) (hb : 0 < o.bucketSize)
    (hi : 0 ≤ o.increment) :
    ∀ (rest : List (Int × Int)) (b p c : Int),
      tableOk ((b, p) :: rest) = true →
      overflowOk o ((b, p) :: rest) = true →
      b < c → p ≤ stepLookup rest o c := by
  intro rest
  induction rest with
  | nil =>
      intro b p c _ hov hbc
      simp only [overflowOk, decide_eq_true_eq] at hov
      calc p ≤ applyOverflow o (b + 1) := hov
        _ ≤ applyOverflow o c := applyOverflow_mono o hb hi (by omega)
  | cons bp2 rest2 ih =>
      intro b p c htab hov hbc
      obtain ⟨b2, p2⟩ := bp2
      simp only [tableOk, Bool.and_eq_true, decide_eq_true_eq] at htab
      obtain ⟨⟨hbb, hpp⟩, htab2⟩ := htab
      have hov2 : overflowOk o ((b2, p2) :: rest2) = true := overflowOk_tail o hov
      simp only [stepLookup]
      by_cases hc : c ≤ b2
      · simp only [hc, if_true]
        exact hpp
      · simp only [hc, if_false]
        exact le_trans hpp (ih b2 p2 c htab2 hov2 (by omega))

/-- `stepLookup` is monotone in the count over a well-formed table
with a compatible overflow rule. -/
theorem stepLookup_mono (o : OverflowRule) (hb : 0 < o.bucketSize)
    (hi : 0 ≤ o.increment) :
    ∀ (bounds : List (Int × Int)) (m n : Int),
      tableOk bounds = true → overflowOk o bounds = true → m ≤ n →
      stepLookup bounds o m ≤ stepLookup bounds o n := by
  intro bounds
  induction bounds with
  | nil =>
      intro m n _ _ hmn
      exact applyOverflow_mono o hb hi hmn
  | cons bp rest ih =>
      intro m n htab hov hmn
      obtain ⟨b, p⟩ := bp
      simp only [stepLookup]
      by_cases hm : m ≤ b
      · simp only [hm, if_true]
        by_cases hn : n ≤ b
        · simp only [hn, if_true]
          exact le_rfl
        · simp only [hn, if_false]
          exact stepLookup_lower o hb hi rest b p n htab hov (by omega)
      · have hn : ¬ n ≤ b := by omega
        simp only [hm, hn, if_false]
        exact ih m n (tableOk_tail htab) (overflowOk_tail o hov) hmn

/-- C2 counterexample: monotonicity fails for the policy configuration
`badPolicy` (bound table [(25, 10), (50, 1)]): counts 25 ≤ 26 price to
10 and 1 respectively, so the price is not monotone for every fixed
policy configuration. -/
theorem calculatePrice_not_mono_counterexample :
    (0 : Int) ≤ 25 ∧ (25 : Int) ≤ 26 ∧
    calculatePrice 25 badPolicy = .ok 10 ∧
    calculatePrice 26 badPolicy = .ok 1 ∧ ¬ ((10 : Int) ≤ 1) :=
  ⟨by decide, by decide, rfl, rfl, by decide⟩

/-- C2 (amended): for every well-formed policy configuration — step
tables with strictly increasing bounds, non-decreasing prices,
positive bucket size, non-negative increment and an overflow rule
yielding at least the last table price just past the last bound, and
linear-with-floor with a non-negative per-row rate — `calculatePrice`
is monotonically non-decreasing on non-negative counts; the example
configuration is well formed. -/
theorem calculatePrice_mono (p : PricePolicy) (hp : policyOk p = true)
    (m n : Int) (h0 : 0 ≤ m) (hmn : m ≤ n) :
    ∃ pm pn, calculatePrice m p = .ok pm ∧ calculatePrice n p = .ok pn ∧
      pm ≤ pn := by
  have h0n : 0 ≤ n := le_trans h0 hmn
  have hm : ¬ m < 0 := by omega
  have hn : ¬ n < 0 := by omega
  match p with
  | .stepTable bounds o =>
      simp only [policyOk, Bool.and_eq_true, decide_eq_true_eq] at hp
      obtain ⟨⟨⟨htab, hb⟩, hi⟩, hov⟩ := hp
      exact ⟨stepLookup bounds o m, stepLookup bounds o n,
        by simp [calculatePrice, hm], by simp [calculatePrice, hn],
        stepLookup_mono o hb hi bounds m n htab hov hmn⟩
  | .linearFloor perRowRate minimumPrice =>
      simp only [policyOk, decide_eq_true_eq] at hp
      exact ⟨max (m * perRowRate) minimumPrice, max (n * perRowRate) minimumPrice,
        by simp [calculatePrice, hm], by simp [calculatePrice, hn],
        max_le_max (mul_le_mul_of_nonneg_right hmn hp) le_rfl⟩

/-- Witness for the amended C2: the example policy is well formed and
the price at count 30 is below the price at count 600. -/
theorem calculatePrice_mono_witness :
    ∃ pm pn, calculatePrice 30 examplePolicy = .ok pm ∧
      calculatePrice 600 examplePolicy = .ok pn ∧ pm ≤ pn :=
  calculatePrice_mono examplePolicy (by decide) 30 600 (by decide) (by decide)

/- ### Row filter theorems (C4–C7) -/

/-- C4: for every Dataset D, filtering with an empty criteria list
returns D itself unchanged together with its length. -/
theorem filterDataset_nil (d : Dataset) : filterDataset d [] = (d, d.length) := by
  have h : d.filter (recordMatches []) = d := by
    induction d with
    | nil => rfl
    | cons r t ih => simp [List.filter_cons, recordMatches, ih]
  simp [filterDataset, h]

/-- C5: for every Dataset D and criteria list C, the returned dataset
is a subsequence of D (its records occur in D in their original
relative order) and the returned count is that subsequence's
length. -/
theorem filterDataset_sublist (d : Dataset) (cs : List FilterCriterion) :
    (filterDataset d cs).1.Sublist d ∧
    (filterDataset d cs).2 = (filterDataset d cs).1.length :=
  ⟨List.filter_sublist d, rfl⟩

/-- C6: appending one more criterion never increases the returned
count, and filtering the already-filtered result with the same
criteria again yields it unchanged. -/
theorem filterDataset_mono_idem (d : Dataset) (cs : List FilterCriterion)
    (c : FilterCriterion) :
    (filterDataset d (cs ++ [c])).2 ≤ (filterDataset d cs).2 ∧
    filterDataset (filterDataset d cs).1 cs = filterDataset d cs := by
  constructor
  · have hsplit : d.filter (recordMatches (cs ++ [c])) =
        (d.filter (recordMatches cs)).filter (fun r => evalCriterion r c) := by
      rw [List.filter_filter]
      apply List.filter_congr
      intro r _
      simp [recordMatches, Bool.and_comm]
    show (d.filter (recordMatches (cs ++ [c]))).length ≤
      (d.filter (recordMatches cs)).length
    rw [hsplit]
    exact List.length_filter_le _ _
  · have hidem : (d.filter (recordMatches cs)).filter (recordMatches cs) =
        d.filter (recordMatches cs) := by
      rw [List.filter_filter]
      apply List.filter_congr
      intro r _
      simp
    simp only [filterDataset, hidem]

/-- C7: for every Dataset D, filtering with a single `contains`
criterion whose operand is the empty string returns the full dataset
unchanged, because an empty/absent operand makes the criterion
always-true. -/
theorem filterDataset_contains_empty (d : Dataset) (f : String) :
    filterDataset d [⟨f, .contains ""⟩] = (d, d.length) := by
  have h : d.filter (recordMatches [⟨f, .contains ""⟩]) = d := by
    induction d with
    | nil => rfl
    | cons r t ih =>
        simp [List.filter_cons, recordMatches, evalCriterion, ih]
  simp [filterDataset, h]

/- ### Workflow theorems (C8, C9) -/

theorem selectJobs_eq (ms : List QueryMatch) :
    selectJobs ms = (ms.map QueryMatch.metadata).filter (fun d => !d.isEmpty) := by
  rw [List.filter_map]
  rfl

theorem selectJobs_nonempty (ms : List QueryMatch) :
    ∀ d ∈ selectJobs ms, d ≠ [] := by
  intro d hd
  simp only [selectJobs, List.mem_map, List.mem_filter] at hd
  obtain ⟨m, ⟨_, hb⟩, rfl⟩ := hd
  simp only [Bool.not_eq_true'] at hb
  exact List.isEmpty_eq_false.mp hb

theorem app_tailor_resume_jobs {E : Type} (env : RagEnv E) (s : AgentState) :
    (app_tailor_resume env s).jobs = s.jobs := by
  cases h : s.selected_job <;> simp [app_tailor_resume, h]

theorem db_tailor_resume_jobs {E : Type} (env : RagEnv E) (s : AgentState) :
    (db_tailor_resume env s).jobs = s.jobs := by
  cases h : s.selected_job <;> simp [db_tailor_resume, h]

theorem app_workflow_jobs {E : Type} (env : RagEnv E) (s : AgentState) :
    (app_workflow env s).jobs =
      selectJobs (env.query (env.embed s.resume_text) 30 "jobs") := by
  simp only [app_workflow]
  split
  · rw [app_tailor_resume_jobs]
    simp [app_generate_analysis, app_retrieve_jobs]
  · simp [app_generate_analysis, app_retrieve_jobs]

theorem db_workflow_jobs {E : Type} (env : RagEnv E) (s : AgentState) :
    (db_workflow env s).jobs =
      selectJobs (env.query (env.embed s.resume_text) 100 "jobs") := by
  simp only [db_workflow]
  split
  · rw [db_tailor_resume_jobs]
    simp [db_generate_analysis, db_retrieve_jobs]
  · simp [db_generate_analysis, db_retrieve_jobs]

theorem selectJobs_length_le (ms : List QueryMatch) :
    (selectJobs ms).length ≤ ms.length := by
  simp only [selectJobs, List.length_map]
  exact List.length_filter_le _ _

/-- C8: the jobs list built by `retrieve_jobs` holds exactly the
metadata of the matches with non-empty metadata, in the order the
index returned them; a match with missing/empty metadata contributes
nothing, `generate_analysis` and `tailor_resume` never change the
jobs list, and every element of the jobs list after either variant's
workflow runs is a non-empty metadata dict. -/
theorem retrieve_jobs_metadata (ms : List QueryMatch) :
    selectJobs ms = (ms.map QueryMatch.metadata).filter (fun d => !d.isEmpty) ∧
    (∀ d ∈ selectJobs ms, d ≠ []) ∧
    ∀ (E : Type) (env : RagEnv E) (s : AgentState),
      (app_generate_analysis env s).jobs = s.jobs ∧
      (app_tailor_resume env s).jobs = s.jobs ∧
      (db_generate_analysis env s).jobs = s.jobs ∧
      (db_tailor_resume env s).jobs = s.jobs ∧
      (∀ d ∈ (app_workflow env s).jobs, d ≠ []) ∧
      (∀ d ∈ (db_workflow env s).jobs, d ≠ []) := by
  refine ⟨selectJobs_eq ms, selectJobs_nonempty ms, ?_⟩
  intro E env s
  refine ⟨rfl, app_tailor_resume_jobs env s, rfl, db_tailor_resume_jobs env s, ?_, ?_⟩
  · rw [app_workflow_jobs]
    exact selectJobs_nonempty _
  · rw [db_workflow_jobs]
    exact selectJobs_nonempty _

/-- C9: the two variants compute the same function of the agent state
except for the retrieval bound — `generate_analysis` and
`tailor_resume` are identical, and each variant's workflow is the
common graph (retrieve_jobs → generate_analysis → conditionally
tailor_resume → END) instantiated at top_k = 30 (src/app.py) resp.
top_k = 100 (src/database.py); when the index returns at most top_k
matches, the jobs list holds at most 30 resp. 100 entries. -/
theorem variants_equiv (E : Type) (env : RagEnv E) (s : AgentState)
    (hq : ∀ e k ns, (env.query e k ns).length ≤ k) :
    app_generate_analysis env s = db_generate_analysis env s ∧
    app_tailor_resume env s = db_tailor_resume env s ∧
    app_workflow env s = workflow_with 30 env s ∧
    db_workflow env s = workflow_with 100 env s ∧
    (app_workflow env s).jobs.length ≤ 30 ∧
    (db_workflow env s).jobs.length ≤ 100 := by
  refine ⟨rfl, rfl, rfl, rfl, ?_, ?_⟩
  · rw [app_workflow_jobs]
    exact le_trans (selectJobs_length_le _) (hq _ _ _)
  · rw [db_workflow_jobs]
    exact le_trans (selectJobs_length_le _) (hq _ _ _)

/-- Witness for C9 at the concrete environment `envW` and state
`stateW`. -/
theorem variants_equiv_witness :
    app_generate_analysis envW stateW = db_generate_analysis envW stateW ∧
    app_tailor_resume envW stateW = db_tailor_resume envW stateW ∧
    app_workflow envW stateW = workflow_with 30 envW stateW ∧
    db_workflow envW stateW = workflow_with 100 envW stateW ∧
    (app_workflow envW stateW).jobs.length ≤ 30 ∧
    (db_workflow envW stateW).jobs.length ≤ 100 :=
  variants_equiv Unit envW stateW (fun e k ns => by simp [envW])

/- ### Authentication theorem (C10) -/

/-- C10: starting not logged in, the session flag ends true (and
`update_last_login` is called) if and only if `get_user_by_username`
returns a row and `verify_password(user[2], password)` succeeds; on
every other outcome the flag stays false, no last-login update
happens, and the Invalid credentials error is shown. -/
theorem authentication_gate (getUser : String → Option UserRow)
    (verifyPassword : String → String → Bool) (username password : String) :
    (((authentication_ui getUser verifyPassword false username password).logged_in = true ∧
      (authentication_ui getUser verifyPassword false username password).lastLoginUpdated = true) ↔
      (∃ u, getUser username = some u ∧ verifyPassword u.col2 password = true)) ∧
    (((authentication_ui getUser verifyPassword false username password).logged_in = false ∧
      (authentication_ui getUser verifyPassword false username password).lastLoginUpdated = false ∧
      (authentication_ui getUser verifyPassword false username password).errorShown = true) ↔
      ¬ (∃ u, getUser username = some u ∧ verifyPassword u.col2 password = true)) := by
  cases hu : getUser username with
  | none => simp [authentication_ui, hu]
  | some u =>
      cases hv : verifyPassword u.col2 password <;>
        simp [authentication_ui, hu, hv]
